import Mathlib

/-!
Verification development for the OpenQuake engine core
(`openquake/engine.py`): configuration parsing with recursive includes,
parameter preparation against the parameter catalog, the calculation
proxy's site-selection policy, and the worker/supervisor status state
machine.

Python dictionaries are modelled as association lists observed only
through lookup (extensionally); strings are Lean strings, with path and
splitting utilities defined over their character lists; machine floats
that are only parsed, compared and reordered (never arithmetically
combined) are modelled as exact rationals.
-/

namespace OpenQuake

/-! ## Dictionaries

An association-list model of a Python `dict` with keys of type `String`.
`dinsert` models `d[k] = v` (extensionally: all earlier bindings of the
key are dropped), `dupdate` models `d.update(nd)` (iterating the items
of `nd` in order), `dlookup` models `d.get(k)` / `d[k]`. -/

/-- Lookup of the first binding of key `k`. -/
def dlookup {α : Type} : List (String × α) → String → Option α
  | [], _ => none
  | (k1, v) :: d, k => if k = k1 then some v else dlookup d k

/-- Remove every binding of key `k`. -/
def derase {α : Type} : List (String × α) → String → List (String × α)
  | [], _ => []
  | (k1, v) :: d, k => if k1 = k then derase d k else (k1, v) :: derase d k

/-- Model of the Python dict assignment `d[k] = v`. -/
def dinsert {α : Type} (d : List (String × α)) (k : String) (v : α) :
    List (String × α) :=
  derase d k ++ [(k, v)]

/-- Model of the Python `d.update(nd)`: insert the items of `nd` in order. -/
def dupdate {α : Type} (d nd : List (String × α)) : List (String × α) :=
  nd.foldl (fun acc kv => dinsert acc kv.1 kv.2) d

/-- Last-write-wins lookup of a key in a plain key/value list: the value of
the last binding of `k`, if any. -/
def dlookupLast {α : Type} (l : List (String × α)) (k : String) : Option α :=
  dlookup l.reverse k

/-- The keys of a dictionary have no duplicates.  Every dictionary built by
`dinsert`/`dupdate` from `[]` satisfies this. -/
abbrev DNodup {α : Type} (d : List (String × α)) : Prop :=
  (d.map Prod.fst).Nodup

/-! ## String and POSIX path utilities

Character-list implementations of the string operations the engine uses:
`str.upper()`, `os.path.dirname`, `os.path.join`, and the
`RE_INCLUDE = re.compile(r'^(.*)_INCLUDE')` match.  Paths are plain
strings; `os.path.abspath` on the already-absolute paths appearing here
is the identity and is not modelled separately. -/

/-- Model of Python `str.upper()` (the keys handled here are ASCII). -/
def strUpper (s : String) : String :=
  String.mk (s.data.map Char.toUpper)

/-- True when the string starts with the character `/`. -/
def isAbs (p : String) : Bool :=
  p.data.head? == some '/'

/-- Model of `os.path.dirname`: everything before the last `/` (empty when
there is no slash; the root directory edge case does not arise here). -/
def dirname (p : String) : String :=
  String.mk (((p.data.reverse.dropWhile (fun c => c ≠ '/')).drop 1).reverse)

/-- Model of `os.path.join` for one relative or absolute component. -/
def joinPath (a b : String) : String :=
  if isAbs b then b
  else if a = "" then b
  else a ++ "/" ++ b

/-- Split a character list at every character satisfying `p` (separators are
dropped; empty chunks are kept, as with `re.split`). -/
def splitChars (p : Char → Bool) : List Char → List (List Char)
  | [] => [[]]
  | c :: rest =>
    if p c then [] :: splitChars p rest
    else
      match splitChars p rest with
      | [] => [[c]]
      | g :: gs => (c :: g) :: gs

/-- True when `pat` occurs as a contiguous sublist. -/
def hasSublist (pat : List Char) : List Char → Bool
  | [] => false
  | c :: rest => pat.isPrefixOf (c :: rest) || hasSublist pat rest

/-- Model of `RE_INCLUDE.match(key)` for `RE_INCLUDE = ^(.*)_INCLUDE`:
`re.match` anchors only at the start, so the pattern matches exactly when
`_INCLUDE` occurs anywhere in the key. -/
def isIncludeKey (key : String) : Bool :=
  hasSublist "_INCLUDE".data key.data

/-! ## Configuration files and `_parse_config_file`

A configuration file is the section/item structure `ConfigParser` yields:
sections in iteration order, each with its key/value items in iteration
order.  The file system maps absolute paths to parsed files.  Recursion
through includes is bounded by fuel, because the source performs no cycle
detection: `none` models non-termination, `some (.error e)` a raised
exception, `some (.ok r)` a normal return. -/

abbrev ConfigFile := List (String × List (String × String))

abbrev FileSystem := List (String × ConfigFile)

abbrev Dict := List (String × String)

/-- Errors raised by the engine paths modelled here. -/
inductive EngineError where
  /-- The config file path does not exist: the spec's `ConfigNotFound`
  (in the source, `jobconf.ValidationException(["File ... not found"])`
  raised by `_parse_config_file` before anything is persisted). -/
  | configNotFound (path : String)
  /-- A Python `KeyError` on the given key. -/
  | keyError (key : String)
  /-- The spec's `ValidationError`: `jobconf.ValidationException` raised
  when the prepared parameters fail validation. -/
  | validationFailed
deriving DecidableEq, Repr

/-- The flattened `(section, key, value)` items of a file, in the order the
source's nested `for section ... for key, value` loops visit them. -/
def fileItems (f : ConfigFile) : List (String × String × String) :=
  f.flatMap (fun sec => sec.2.map (fun kv => (sec.1, kv.1, kv.2)))

/-- Fold a fallible, possibly-diverging step over a list, stopping at the
first error (modelling a Python loop whose body may raise). -/
def foldE {σ α : Type} (step : σ → α → Option (Except EngineError σ)) :
    σ → List α → Option (Except EngineError σ)
  | st, [] => some (.ok st)
  | st, x :: xs =>
    match step st x with
    | none => none
    | some (.error e) => some (.error e)
    | some (.ok st2) => foldE step st2 xs

/-- The body of `_parse_config_file`'s item loop.  The state is the current
value of the (reassigned!) `config_file` variable together with the `params`
and `sections` accumulators; `parseRec` is the recursive call
`_parse_config_file(config_file)` for included files.  Note that the include
branch rebinds `config_file`, so a later include in the same file is joined
to the directory of this include's resolved path. -/
def parseStep (parseRec : String → Option (Except EngineError (Dict × List String)))
    (st : String × Dict × List String) (item : String × String × String) :
    Option (Except EngineError (String × Dict × List String)) :=
  let key := strUpper item.2.1
  if isIncludeKey key then
    let configFile := joinPath (dirname st.1) item.2.2
    match parseRec configFile with
    | none => none
    | some (.error e) => some (.error e)
    | some (.ok (newParams, newSections)) =>
      some (.ok (configFile, dupdate st.2.1 newParams, st.2.2 ++ newSections))
  else
    some (.ok (st.1, dinsert st.2.1 key item.2.2, st.2.2 ++ [item.1]))

/-- Model of `_parse_config_file`: returns the merged parameter dictionary
(with `BASE_PATH` set to the root file's directory) and the deduplicated
section list. -/
def parseConfigFile (fs : FileSystem) : Nat → String →
    Option (Except EngineError (Dict × List String))
  | 0, _ => none
  | fuel + 1, configFile =>
    let basePath := dirname configFile
    match dlookup fs configFile with
    | none => some (.error (.configNotFound configFile))
    | some file =>
      match foldE (parseStep (parseConfigFile fs fuel)) (configFile, [], [])
          (fileItems file) with
      | none => none
      | some (.error e) => some (.error e)
      | some (.ok (_, params, sections)) =>
        some (.ok (dinsert params "BASE_PATH" basePath, sections.dedup))

/-! ## Spec-side companion: the flat visitation of a configuration

Following the spec's round-trip property, `visitedConfig` produces the raw
key/value pairs of every visited file in inclusion (depth-first visitation)
order — to be merged manually with last-write-wins semantics — and the
section names attached to those pairs (the sections of visited files that
carry at least one non-include key).  It traverses exactly the files the
parser visits. -/

def visitStep
    (visitRec : String → Option (Except EngineError (List (String × String) × List String)))
    (st : String × List (String × String) × List String)
    (item : String × String × String) :
    Option (Except EngineError (String × List (String × String) × List String)) :=
  let key := strUpper item.2.1
  if isIncludeKey key then
    let configFile := joinPath (dirname st.1) item.2.2
    match visitRec configFile with
    | none => none
    | some (.error e) => some (.error e)
    | some (.ok (ps, secs)) =>
      some (.ok (configFile, st.2.1 ++ ps, st.2.2 ++ secs))
  else
    some (.ok (st.1, st.2.1 ++ [(strUpper item.2.1, item.2.2)], st.2.2 ++ [item.1]))

def visitedConfig (fs : FileSystem) : Nat → String →
    Option (Except EngineError (List (String × String) × List String))
  | 0, _ => none
  | fuel + 1, configFile =>
    match dlookup fs configFile with
    | none => some (.error (.configNotFound configFile))
    | some file =>
      match foldE (visitStep (visitedConfig fs fuel)) (configFile, [], [])
          (fileItems file) with
      | none => none
      | some (.error e) => some (.error e)
      | some (.ok (_, ps, secs)) => some (.ok (ps, secs))

/-! ## The parameter catalog and `_prepare_config_parameters`

The catalog itself lives in `openquake.job.params`, which is not among the
repository files provided; it is modelled from the spec as data:
`ParameterCatalog` is the spec's static registry of every recognized
parameter (name, allowed calculation modes), the path-valued parameter
names (`PATH_PARAMS`), and the `CALCULATION_MODE` mode-name lookup table.
`prepare_config_parameters` itself is translated from
`_prepare_config_parameters` in `openquake/engine.py`. -/

/-- Modelled from the spec: a catalog entry, the spec's `ParameterSpec`
restricted to the field this code path reads (`param.modes`). -/
structure ParamSpec where
  modes : List String
deriving DecidableEq, Repr

/-- Modelled from the spec: the process-wide parameter registry of
`openquake.job.params` (not under `src/`): the `PARAMS` dict, the
`PATH_PARAMS` name list and the `CALCULATION_MODE` lookup table. -/
structure ParameterCatalog where
  PARAMS : List (String × ParamSpec)
  PATH_PARAMS : List String
  calculationModes : List (String × String)

/-- One iteration of the filtering loop of `_prepare_config_parameters`:
keep a parameter only when the catalog knows it and its modes include the
active mode (dropped parameters only produce a printed diagnostic, which is
not modelled). -/
def filterStep (cat : ParameterCatalog) (calcMode : String) (np : Dict)
    (kv : String × String) : Dict :=
  match dlookup cat.PARAMS kv.1 with
  | none => np
  | some spec => if calcMode ∈ spec.modes then dinsert np kv.1 kv.2 else np

/-- The filtering loop of `_prepare_config_parameters` over all items. -/
def filterParams (cat : ParameterCatalog) (calcMode : String) (params : Dict) :
    Dict :=
  params.foldl (filterStep cat calcMode) []

/-- The `make file paths absolute` loop: for each path-valued name present,
rewrite its value to `os.path.join(params['BASE_PATH'], value)`; a missing
`BASE_PATH` is a `KeyError`. -/
def absolutizePaths (origParams : Dict) :
    List String → Dict → Except EngineError Dict
  | [], np => .ok np
  | name :: rest, np =>
    match dlookup np name with
    | none => absolutizePaths origParams rest np
    | some v =>
      match dlookup origParams "BASE_PATH" with
      | none => .error (.keyError "BASE_PATH")
      | some bp => absolutizePaths origParams rest (dinsert np name (joinPath bp v))

/-- Model of `_prepare_config_parameters`: mode lookup, catalog filtering,
path absolutization, and the classical hazard+risk defaulting of
`COMPUTE_MEAN_HAZARD_CURVE` (the source prints a diagnostic when overriding
a user-supplied value; only the returned mapping is modelled). -/
def prepare_config_parameters (cat : ParameterCatalog) (params : Dict)
    (sections : List String) : Except EngineError (Dict × List String) :=
  match dlookup params "CALCULATION_MODE" with
  | none => .error (.keyError "CALCULATION_MODE")
  | some modeName =>
    match dlookup cat.calculationModes modeName with
    | none => .error (.keyError modeName)
    | some calcMode =>
      match absolutizePaths params cat.PATH_PARAMS (filterParams cat calcMode params) with
      | .error e => .error e
      | .ok np =>
        if calcMode = "classical" ∧ "HAZARD" ∈ sections ∧ "RISK" ∈ sections
        then .ok (dinsert np "COMPUTE_MEAN_HAZARD_CURVE" "true", sections)
        else .ok (np, sections)

/-! ## The import pipeline (`import_job_profile`)

`import_job_profile` parses, prepares, validates and only then persists the
job profile in `_prepare_job`.  Validation (`jobconf.default_validators`)
is an external collaborator and is modelled as an abstract predicate; the
number of durable records `_prepare_job` would create is likewise abstract.
The pipeline returns the run's outcome together with how many durable
records were created during it. -/

def import_job_profile (fs : FileSystem) (cat : ParameterCatalog)
    (validatorOk : Dict → List String → Bool) (prepareJobRecords : Nat)
    (fuel : Nat) (path : String) :
    Option (Except EngineError (Dict × List String)) × Nat :=
  match parseConfigFile fs fuel path with
  | none => (none, 0)
  | some (.error e) => (some (.error e), 0)
  | some (.ok (params, sections)) =>
    match prepare_config_parameters cat params sections with
    | .error e => (some (.error e), 0)
    | .ok (params2, sections2) =>
      if validatorOk params2 sections2 then
        (some (.ok (params2, sections2)), prepareJobRecords)
      else (some (.error .validationFailed), 0)

/-! ## Decimal parsing and coordinate extraction

`float(...)` applied to the decimal literals appearing in the coordinate
parameters is modelled as exact rational parsing: these values are only
split, zipped and compared (never arithmetically combined), so two equal
decimal literals denote equal rationals exactly as two equal literals
denote equal floats. -/

/-- The natural number denoted by a digit list. -/
def digitsToNat (l : List Char) : Nat :=
  l.foldl (fun n c => n * 10 + (c.toNat - 48)) 0

/-- Split a character list at every separator (separators dropped, empty
chunks kept). -/
def splitChar (sep : Char) (l : List Char) : List (List Char) :=
  splitChars (fun c => c = sep) l

/-- The non-negative rational denoted by the digit characters `t`, with an
optional single point: the integer and fractional digits over the matching
power of ten. -/
def parseDecChars (t : List Char) : ℚ :=
  match splitChar '.' t with
  | [i] => mkRat (digitsToNat i) 1
  | [i, f] => mkRat (digitsToNat i * 10 ^ f.length + digitsToNat f) (10 ^ f.length)
  | _ => 0

/-- Modelled from the spec: Python `float(s)` on the decimal literals used in
coordinate parameters, as an exact rational. -/
def parseDecimal (s : String) : ℚ :=
  match s.data with
  | '-' :: t => -(parseDecChars t)
  | t => parseDecChars t

/-- Modelled from the spec: the catalog's `to_job` transform for
coordinate-list parameters (`openquake.job.params`, not under `src/`),
which splits the raw string on the array delimiter pattern `[\s,]+`
(`ARRAY_RE`) and parses each piece as a float. -/
def toJobFloatList (s : String) : List ℚ :=
  ((splitChars (fun c => c = ' ' || c = ',') s.data).filter
    (fun t => ¬ t = [])).map (fun t => parseDecimal (String.mk t))

/-- Python's `l[::2]` (every other element, starting at the first). -/
def everyOther {α : Type} : List α → List α
  | [] => []
  | [x] => [x]
  | x :: _ :: rest => x :: everyOther rest

/-! ## CalculationProxy and the site-selection policy

`shapes.Site`, `shapes.Region`/`RegionConstraint` and the exposure parser
are external collaborators; `Site` is the spec's (longitude, latitude)
coordinate and `RegionConstraint` the spec's polygon-plus-cell-size.  The
grid enumeration a `shapes.Region` performs and the `(site, asset)` stream
the exposure reader yields are floating-point/XML machinery outside the
sources provided, so the proxy carries both as oracle fields
(`regionGridSites`, `exposureFilteredSites`); the claims proved below never
depend on their values. -/

/-- Modelled from the spec: `shapes.Site(lon, lat)`. -/
structure Site where
  lon : ℚ
  lat : ℚ
deriving DecidableEq, Repr

/-- Modelled from the spec: `shapes.RegionConstraint.from_coordinates`
plus the `cell_size` attribute set right after construction. -/
structure RegionConstraint where
  vertices : List (ℚ × ℚ)
  cellSize : ℚ
deriving DecidableEq, Repr

/-- Modelled from the spec: the section and parameter name constants of
`openquake.job.config` (not under `src/`). -/
def RISK_SECTION : String := "RISK"

/-- Modelled from the spec: `jobconf.HAZARD_SECTION`. -/
def HAZARD_SECTION : String := "HAZARD"

/-- Modelled from the spec: `jobconf.SITES`. -/
def SITES_KEY : String := "SITES"

/-- Modelled from the spec: `jobconf.COMPUTE_HAZARD_AT_ASSETS`. -/
def COMPUTE_HAZARD_AT_ASSETS : String := "COMPUTE_HAZARD_AT_ASSETS_LOCATIONS"

/-- The runtime state of a `CalculationProxy` that the site-selection and
parameter-access methods read: the memoized site cache (`self.sites`), the
parameter dictionary and the section list, plus the two oracle fields for
the external exposure reader and region grid iterator. -/
structure CalculationProxy where
  sites : List Site
  params : Dict
  sections : List String
  exposureFilteredSites : List Site
  regionGridSites : List Site

namespace CalculationProxy

/-- Model of `CalculationProxy.has`: the parameter is present and its string
value is truthy (non-empty). -/
def has (cp : CalculationProxy) (name : String) : Bool :=
  match dlookup cp.params name with
  | some v => if v = "" then false else true
  | none => false

/-- Model of `CalculationProxy._extract_coords`:
`zip(verts[1::2], verts[::2])` over the coordinate list obtained through
`self[config_param]` (the catalog's `to_job` float-list transform). -/
def extract_coords (cp : CalculationProxy) (name : String) : List (ℚ × ℚ) :=
  let verts := toJobFloatList ((dlookup cp.params name).getD "")
  (everyOther (verts.drop 1)).zip (everyOther verts)

/-- Model of the `region` property: `None` without a truthy `REGION_VERTEX`;
otherwise the region constraint built from the extracted `(lon, lat)` pairs
with `float(self['REGION_GRID_SPACING'])` as cell size. -/
def region (cp : CalculationProxy) : Option RegionConstraint :=
  if has cp "REGION_VERTEX" then
    some { vertices := extract_coords cp "REGION_VERTEX",
           cellSize := parseDecimal ((dlookup cp.params "REGION_GRID_SPACING").getD "") }
  else none

/-- Model of `read_sites_from_exposure`: deduplicate, preserving first
occurrence order, the sites the exposure reader yields inside the region
(the reader itself is the oracle field). -/
def read_sites_from_exposure (cp : CalculationProxy) : List Site :=
  cp.exposureFilteredSites.foldl
    (fun sites site => if site ∈ sites then sites else sites ++ [site]) []

/-- Model of `CalculationProxy.sites_to_compute`: the memoized cache if
non-empty, else the exposure policy (risk section present and the
compute-hazard-at-assets flag truthy), else the explicit `SITES` list,
else the region grid. -/
def sites_to_compute (cp : CalculationProxy) : List Site :=
  if cp.sites ≠ [] then cp.sites
  else if RISK_SECTION ∈ cp.sections ∧ has cp COMPUTE_HAZARD_AT_ASSETS = true then
    read_sites_from_exposure cp
  else if has cp SITES_KEY = true then
    (extract_coords cp SITES_KEY).map (fun c => Site.mk c.1 c.2)
  else cp.regionGridSites

end CalculationProxy

/-! ## The status state machine of `run_calculation`

`run_calculation` saves the record with status `running`, forks the worker
(which runs `_launch_calculation` under `try/except` and records exactly one
terminal status, re-raising on failure) and the supervisor (which waits for
the worker process to exit and then reconciles; `supervisor.supervise` is
not among the sources provided and is modelled from the spec: it records
`failed` only if the worker died without recording a terminal status,
checking current state before writing).  The parent waits for both children,
so every write sequence is `running`, then the worker's writes, then the
supervisor's. -/

inductive Status where
  | pending
  | running
  | succeeded
  | failed
deriving DecidableEq, Repr

/-- A status is terminal when it is `succeeded` or `failed`. -/
def Status.isTerminal : Status → Bool
  | .succeeded => true
  | .failed => true
  | _ => false

/-- How the worker process ends: `_launch_calculation` returned or raised
(`completed`), or the process died without reaching its own status write
(killed out-of-band, crash). -/
inductive WorkerOutcome where
  | completed (result : Except String Unit)
  | killed

/-- The worker's `try/except/else` boundary around `_launch_calculation`:
the list of status writes it performs and what it returns or re-raises. -/
def workerBoundary (launch : Except String Unit) :
    List Status × Except String Unit :=
  match launch with
  | .error e => ([Status.failed], .error e)
  | .ok _ => ([Status.succeeded], .ok ())

/-- The status writes the worker process performs: its boundary's writes
when it completes, none when it is killed before writing. -/
def workerWrites : WorkerOutcome → List Status
  | .completed r => (workerBoundary r).1
  | .killed => []

/-- The status the record holds after a list of writes applied in order. -/
def statusAfter (writes : List Status) (init : Status) : Status :=
  writes.foldl (fun _ w => w) init

/-- Modelled from the spec: the supervisor's reconciliation
(`supervisor.supervise`, not under `src/`): after the worker exits it
records `failed` only when the current status is not yet terminal. -/
def supervisorWrites (current : Status) : List Status :=
  if current.isTerminal then [] else [Status.failed]

/-- The ordered sequence of status writes one `run_calculation` produces:
the `running` write at record creation, the worker's writes, then the
supervisor's reconciliation against the status the worker left. -/
def runCalculationWrites (w : WorkerOutcome) : List Status :=
  let ww := workerWrites w
  [Status.running] ++ ww ++ supervisorWrites (statusAfter ww Status.running)

/-- The record's status after the first `n` writes of a run (a fresh record
starts as `pending`). -/
def statusAt (w : WorkerOutcome) (n : Nat) : Status :=
  statusAfter ((runCalculationWrites w).take n) Status.pending

/-- The key `k` is known to the catalog and legal in mode `m`. -/
def GoodKey (cat : ParameterCatalog) (m k : String) : Prop :=
  ∃ sp, dlookup cat.PARAMS k = some sp ∧ m ∈ sp.modes

/-! ## Concrete inputs used by counterexamples and witnesses -/

/-- A root file whose two include directives name files in different
directories: `sub/x.gem` first, then `y.gem`.  Copies of `y.gem` exist both
beside the root (`/a/y.gem`, parameter `K = rootdir`) and beside the first
include (`/a/sub/y.gem`, parameter `K = subdir`). -/
def fsTwoIncludes : FileSystem := [
  ("/a/root.gem",
    [("general", [("HAZARD_INCLUDE", "sub/x.gem"), ("RISK_INCLUDE", "y.gem")])]),
  ("/a/sub/x.gem", [("HAZARD", [("HP", "1")])]),
  ("/a/y.gem", [("RISK", [("K", "rootdir")])]),
  ("/a/sub/y.gem", [("RISK", [("K", "subdir")])])]

/-- A root file whose only section, `general`, contains nothing but an
include directive. -/
def fsIncludeOnlySection : FileSystem := [
  ("/a/r.gem", [("general", [("HAZARD_INCLUDE", "h.gem")])]),
  ("/a/h.gem", [("HAZARD", [("P", "1")])])]

/-- A proxy whose `SITES` parameter holds the two lat,lon pairs of the
spec's Scenario B, with an empty site cache and no risk section. -/
def cpSitesEx : CalculationProxy :=
  { sites := [],
    params := [("SITES", "37.5,-122.2 37.5,-122.1")],
    sections := ["general", "HAZARD"],
    exposureFilteredSites := [],
    regionGridSites := [] }

/-- A proxy in which `REGION_VERTEX`, the compute-hazard-at-assets flag and
`SITES` are all present but mapped to the empty string. -/
def cpEmptyEx : CalculationProxy :=
  { sites := [],
    params := [("REGION_VERTEX", ""),
      ("COMPUTE_HAZARD_AT_ASSETS_LOCATIONS", ""), ("SITES", "")],
    sections := ["general", "HAZARD", "RISK"],
    exposureFilteredSites := [⟨1, 2⟩],
    regionGridSites := [⟨3, 4⟩] }

/-- A demonstration catalog used by witnesses: a classical/scenario mode
table with a handful of registered parameters, one of them path-valued. -/
def demoCatalog : ParameterCatalog :=
  { PARAMS := [("CALCULATION_MODE", ⟨["classical", "scenario"]⟩),
      ("BASE_PATH", ⟨["classical", "scenario"]⟩),
      ("COMPUTE_MEAN_HAZARD_CURVE", ⟨["classical"]⟩),
      ("EXPOSURE", ⟨["classical"]⟩),
      ("SITES", ⟨["classical", "scenario"]⟩)],
    PATH_PARAMS := ["EXPOSURE"],
    calculationModes := [("classical", "classical"), ("scenario", "scenario")] }

/-! ## Theorems -/

theorem dlookup_append {α : Type} (a b : List (String × α)) (k : String) :
    dlookup (a ++ b) k =
      match dlookup a k with
      | some v => some v
      | none => dlookup b k := by
  induction a with
  | nil => simp [dlookup]
  | cons p rest ih =>
    obtain ⟨k1, v⟩ := p
    by_cases h : k = k1 <;> simp [dlookup, h, ih]

theorem dlookup_derase {α : Type} (d : List (String × α)) (k k1 : String) :
    dlookup (derase d k) k1 = if k1 = k then none else dlookup d k1 := by
  induction d with
  | nil => simp [derase, dlookup]
  | cons p rest ih =>
    obtain ⟨k2, v⟩ := p
    by_cases h2 : k2 = k
    · by_cases h1 : k1 = k <;> simp_all [derase, dlookup]
    · by_cases h1 : k1 = k2 <;> by_cases h3 : k1 = k <;>
        simp_all [derase, dlookup]

theorem dlookup_dinsert {α : Type} (d : List (String × α)) (k v k1) :
    dlookup (dinsert d k v) k1 = if k1 = k then some v else dlookup d k1 := by
  unfold dinsert
  rw [dlookup_append, dlookup_derase]
  by_cases h : k1 = k
  · simp [h, dlookup]
  · simp only [if_neg h]
    cases hd : dlookup d k1 <;> simp [dlookup, h]

/-- Inserting a value the dictionary already binds leaves it extensionally
unchanged. -/
theorem dlookup_dinsert_self {α : Type} (d : List (String × α)) (k v)
    (h : dlookup d k = some v) (k1 : String) :
    dlookup (dinsert d k v) k1 = dlookup d k1 := by
  rw [dlookup_dinsert]
  split
  · next heq => rw [heq, h]
  · rfl

theorem dlookup_dupdate {α : Type} (d nd : List (String × α)) (k : String) :
    dlookup (dupdate d nd) k =
      match dlookupLast nd k with
      | some v => some v
      | none => dlookup d k := by
  induction nd generalizing d with
  | nil => simp [dupdate, dlookupLast, dlookup]
  | cons p rest ih =>
    obtain ⟨k1, v⟩ := p
    have hstep : dupdate d ((k1, v) :: rest) = dupdate (dinsert d k1 v) rest := rfl
    rw [hstep, ih]
    have hlast : dlookupLast ((k1, v) :: rest) k =
        match dlookupLast rest k with
        | some w => some w
        | none => if k = k1 then some v else none := by
      simp only [dlookupLast, List.reverse_cons, dlookup_append]
      cases dlookup rest.reverse k <;> simp [dlookup]
    rw [hlast]
    cases hc : dlookupLast rest k
    · rw [dlookup_dinsert]
      by_cases hk : k = k1 <;> simp [hk]
    · simp

theorem dlookup_eq_none_of_not_mem_keys {α : Type} (d : List (String × α))
    (k : String) (h : k ∉ d.map Prod.fst) : dlookup d k = none := by
  induction d with
  | nil => rfl
  | cons p rest ih =>
    obtain ⟨k1, v⟩ := p
    simp only [List.map_cons, List.mem_cons] at h
    have h1 : ¬ k = k1 := fun hc => h (Or.inl hc)
    simp [dlookup, h1, ih (fun hm => h (Or.inr hm))]

/-- On duplicate-free key lists, first-match lookup and last-write-wins
lookup agree. -/
theorem dlookupLast_eq_dlookup {α : Type} (d : List (String × α))
    (h : DNodup d) (k : String) : dlookupLast d k = dlookup d k := by
  induction d with
  | nil => rfl
  | cons p rest ih =>
    obtain ⟨k1, v⟩ := p
    have hnd : DNodup rest := (List.nodup_cons.mp h).2
    have hk1 : k1 ∉ rest.map Prod.fst := (List.nodup_cons.mp h).1
    have hlast : dlookupLast ((k1, v) :: rest) k =
        match dlookupLast rest k with
        | some w => some w
        | none => if k = k1 then some v else none := by
      simp only [dlookupLast, List.reverse_cons, dlookup_append]
      cases dlookup rest.reverse k <;> simp [dlookup]
    rw [hlast, ih hnd]
    by_cases hkk : k = k1
    · subst hkk
      rw [dlookup_eq_none_of_not_mem_keys rest k hk1]
      simp [dlookup]
    · cases hrest : dlookup rest k <;> simp [dlookup, hkk, hrest]

theorem keys_derase {α : Type} (d : List (String × α)) (k : String) :
    (derase d k).map Prod.fst = (d.map Prod.fst).filter (fun k1 => k1 ≠ k) := by
  induction d with
  | nil => rfl
  | cons p rest ih =>
    obtain ⟨k1, v⟩ := p
    by_cases h : k1 = k <;> simp [derase, h, ih, List.filter_cons]

theorem dnodup_dinsert {α : Type} (d : List (String × α)) (k v)
    (h : DNodup d) : DNodup (dinsert d k v) := by
  unfold DNodup at *
  simp only [dinsert, List.map_append, List.map_cons, List.map_nil]
  apply List.Nodup.append
  · rw [keys_derase]; exact h.filter _
  · exact List.nodup_singleton _
  · intro a ha hb
    simp only [List.mem_singleton] at hb
    subst hb
    rw [keys_derase] at ha
    have := List.of_mem_filter ha
    simp at this

theorem dnodup_dupdate {α : Type} (d nd : List (String × α))
    (h : DNodup d) : DNodup (dupdate d nd) := by
  induction nd generalizing d with
  | nil => exact h
  | cons p rest ih => exact ih _ (dnodup_dinsert _ _ _ h)

theorem dnodup_nil {α : Type} : DNodup ([] : List (String × α)) :=
  List.nodup_nil

theorem isAbs_joinPath (a b : String) (h : isAbs a = true) :
    isAbs (joinPath a b) = true := by
  unfold isAbs at h
  have hhead : a.data.head? = some '/' := eq_of_beq h
  unfold joinPath
  split
  · assumption
  · split
    · next hempty =>
      exfalso
      rw [hempty] at hhead
      simp at hhead
    · unfold isAbs
      have hne : a.data ≠ [] := by
        intro hc
        rw [hc] at hhead
        simp at hhead
      have hdata : (a ++ "/" ++ b).data = a.data ++ ("/".data ++ b.data) := by
        rw [String.data_append, String.data_append, List.append_assoc]
      rw [hdata, List.head?_append_of_ne_nil _ hne, hhead]
      rfl

theorem joinPath_of_isAbs (a b : String) (h : isAbs b = true) :
    joinPath a b = b := by
  unfold joinPath
  rw [h]
  simp

theorem dlookupLast_append {α : Type} (a b : List (String × α)) (k : String) :
    dlookupLast (a ++ b) k =
      match dlookupLast b k with
      | some v => some v
      | none => dlookupLast a k := by
  simp [dlookupLast, List.reverse_append, dlookup_append]

/-- The visitation fold only appends to its pair and section accumulators. -/
theorem visit_fold_shift
    (vr : String → Option (Except EngineError (List (String × String) × List String)))
    (items : List (String × String × String)) :
    ∀ (cf : String) (vp : List (String × String)) (vs : List String),
      foldE (visitStep vr) (cf, vp, vs) items =
        Option.map (Except.map (fun st => (st.1, vp ++ st.2.1, vs ++ st.2.2)))
          (foldE (visitStep vr) (cf, [], []) items) := by
  induction items with
  | nil => intro cf vp vs; simp [foldE, Except.map]
  | cons item rest ih =>
    intro cf vp vs
    simp only [foldE, visitStep]
    by_cases hinc : isIncludeKey (strUpper item.2.1) = true
    · simp only [hinc, if_true]
      cases hvr : vr (joinPath (dirname cf) item.2.2) with
      | none => simp
      | some r =>
        cases r with
        | error e => simp [Except.map]
        | ok child =>
          obtain ⟨cps, cvs⟩ := child
          simp only [List.nil_append]
          rw [ih, ih (joinPath (dirname cf) item.2.2) cps cvs]
          cases hrest : foldE (visitStep vr) (joinPath (dirname cf) item.2.2, [], []) rest with
          | none => simp
          | some r2 =>
            cases r2 with
            | error e => simp [Except.map]
            | ok st => simp [Except.map, List.append_assoc]
    · rw [Bool.not_eq_true] at hinc
      simp only [hinc, Bool.false_eq_true, if_false, List.nil_append]
      rw [ih, ih cf [(strUpper item.2.1, item.2.2)] [item.1]]
      cases hrest : foldE (visitStep vr) (cf, [], []) rest with
      | none => simp
      | some r2 =>
        cases r2 with
        | error e => simp [Except.map]
        | ok st => simp [Except.map, List.append_assoc]

theorem omatch_collapse {α : Type} (o : Option α) :
    (match o with | some v => some v | none => none) = o := by
  cases o <;> rfl

/-- Item-level invariant connecting the parser fold to the visitation fold:
apart from the `BASE_PATH` key, the parser's accumulated dictionary is
extensionally the last-write-wins merge of the visited pairs into the
dictionary it started from, and the accumulated section names are, as sets,
the starting ones plus the visited ones. -/
theorem foldE_rel (fs : FileSystem) (fuel : Nat)
    (hP : ∀ cf p s, parseConfigFile fs fuel cf = some (.ok (p, s)) →
      ∃ ps vs, visitedConfig fs fuel cf = some (.ok (ps, vs)) ∧ DNodup p ∧
        (∀ k, k ≠ "BASE_PATH" → dlookup p k = dlookup (dupdate [] ps) k) ∧
        dlookup p "BASE_PATH" = some (dirname cf) ∧
        (∀ x, x ∈ s ↔ x ∈ vs)) :
    ∀ (items : List (String × String × String)) (cf : String) (d : Dict)
      (sec : List String) (cf1 : String) (p : Dict) (s1 : List String),
      foldE (parseStep (parseConfigFile fs fuel)) (cf, d, sec) items =
        some (.ok (cf1, p, s1)) →
      DNodup d →
      ∃ ps vs, foldE (visitStep (visitedConfig fs fuel)) (cf, [], []) items =
          some (.ok (cf1, ps, vs)) ∧ DNodup p ∧
        (∀ k, k ≠ "BASE_PATH" → dlookup p k = dlookup (dupdate d ps) k) ∧
        (∀ x, x ∈ s1 ↔ x ∈ sec ∨ x ∈ vs) := by
  intro items
  induction items with
  | nil =>
    intro cf d sec cf1 p s1 hfold hnd
    simp only [foldE, Option.some.injEq, Except.ok.injEq, Prod.mk.injEq] at hfold
    obtain ⟨hcf, hp, hs⟩ := hfold
    subst hcf; subst hp; subst hs
    exact ⟨[], [], rfl, hnd, fun k _ => rfl, fun x => by simp⟩
  | cons item rest ih =>
    intro cf d sec cf1 p s1 hfold hnd
    simp only [foldE, parseStep] at hfold
    by_cases hinc : isIncludeKey (strUpper item.2.1) = true
    · rw [hinc] at hfold
      simp only [if_true] at hfold
      cases hrec : parseConfigFile fs fuel (joinPath (dirname cf) item.2.2) with
      | none => rw [hrec] at hfold; simp at hfold
      | some r =>
        rw [hrec] at hfold
        cases r with
        | error e => simp at hfold
        | ok childPair =>
          obtain ⟨cp, cs⟩ := childPair
          simp only at hfold
          obtain ⟨cps, cvs, hcvisit, hcnd, hcrel, _hcbp, hcsec⟩ := hP _ _ _ hrec
          obtain ⟨psr, vsr, hvrest, hnd2, hrel2, hsec2⟩ :=
            ih _ _ _ _ _ _ hfold (dnodup_dupdate _ _ hnd)
          refine ⟨cps ++ psr, cvs ++ vsr, ?_, hnd2, ?_, ?_⟩
          · simp only [foldE, visitStep, hinc, if_true, hcvisit, List.nil_append]
            rw [visit_fold_shift _ _ _ cps cvs, hvrest]
            simp [Except.map]
          · intro k hk
            rw [hrel2 k hk]
            have hcp2 : dlookupLast cp k = dlookupLast cps k := by
              rw [dlookupLast_eq_dlookup cp hcnd, hcrel k hk, dlookup_dupdate]
              have : dlookup ([] : Dict) k = none := rfl
              rw [this]
              exact omatch_collapse _
            rw [dlookup_dupdate (dupdate d cp) psr k,
              dlookup_dupdate d cp k,
              dlookup_dupdate d (cps ++ psr) k,
              dlookupLast_append cps psr k, hcp2]
            cases dlookupLast psr k <;> cases dlookupLast cps k <;> simp
          · intro x
            rw [hsec2 x]
            simp only [List.mem_append]
            rw [hcsec x]
            tauto
    · rw [Bool.not_eq_true] at hinc
      simp only [hinc, Bool.false_eq_true, if_false] at hfold
      obtain ⟨psr, vsr, hvrest, hnd2, hrel2, hsec2⟩ :=
        ih _ _ _ _ _ _ hfold (dnodup_dinsert _ _ _ hnd)
      refine ⟨(strUpper item.2.1, item.2.2) :: psr, item.1 :: vsr, ?_, hnd2, ?_, ?_⟩
      · simp only [foldE, visitStep, hinc, Bool.false_eq_true, if_false,
          List.nil_append]
        rw [visit_fold_shift _ _ _ [(strUpper item.2.1, item.2.2)] [item.1], hvrest]
        simp [Except.map]
      · intro k hk
        rw [hrel2 k hk]
        rfl
      · intro x
        rw [hsec2 x]
        simp only [List.mem_append, List.mem_cons, List.mem_singleton]
        tauto

/-- File-level invariant: a successful parse visits the same files as the
spec-side visitation; its parameters are, extensionally, the last-write-wins
merge of the visited pairs except that `BASE_PATH` is bound to the root
file's directory, and its section list agrees with the visited sections as
a set. -/
theorem parse_visited_rel (fs : FileSystem) :
    ∀ (fuel : Nat) (cf : String) (p : Dict) (s : List String),
      parseConfigFile fs fuel cf = some (.ok (p, s)) →
      ∃ ps vs, visitedConfig fs fuel cf = some (.ok (ps, vs)) ∧ DNodup p ∧
        (∀ k, k ≠ "BASE_PATH" → dlookup p k = dlookup (dupdate [] ps) k) ∧
        dlookup p "BASE_PATH" = some (dirname cf) ∧
        (∀ x, x ∈ s ↔ x ∈ vs) := by
  intro fuel
  induction fuel with
  | zero => intro cf p s h; simp [parseConfigFile] at h
  | succ fuel ih =>
    intro cf p s h
    simp only [parseConfigFile] at h
    cases hfind : dlookup fs cf with
    | none => rw [hfind] at h; simp at h
    | some file =>
      rw [hfind] at h
      dsimp only at h
      cases hfold : foldE (parseStep (parseConfigFile fs fuel)) (cf, [], [])
          (fileItems file) with
      | none => rw [hfold] at h; simp at h
      | some r =>
        rw [hfold] at h
        cases r with
        | error e => simp at h
        | ok st =>
          obtain ⟨cfend, params, sections⟩ := st
          simp only [Option.some.injEq, Except.ok.injEq, Prod.mk.injEq] at h
          obtain ⟨hp, hs⟩ := h
          obtain ⟨ps, vs, hvfold, hnd, hrel, hsec⟩ :=
            foldE_rel fs fuel ih (fileItems file) cf [] [] cfend params
              sections hfold dnodup_nil
          refine ⟨ps, vs, ?_, ?_, ?_, ?_, ?_⟩
          · simp only [visitedConfig, hfind, hvfold]
          · rw [← hp]; exact dnodup_dinsert _ _ _ hnd
          · intro k hk
            rw [← hp, dlookup_dinsert, if_neg hk]
            exact hrel k hk
          · rw [← hp, dlookup_dinsert]
            simp
          · intro x
            rw [← hs, List.mem_dedup, hsec x]
            simp

/-! ## Lemmas about the parameter-preparation layer -/

theorem dlookupLast_cons {α : Type} (k1 : String) (v : α)
    (l : List (String × α)) (k : String) :
    dlookupLast ((k1, v) :: l) k =
      match dlookupLast l k with
      | some w => some w
      | none => if k = k1 then some v else none := by
  simp only [dlookupLast, List.reverse_cons, dlookup_append]
  cases dlookup l.reverse k <;> simp [dlookup]

theorem filter_foldl_lookup (cat : ParameterCatalog) (m : String) :
    ∀ (l : List (String × String)) (acc : Dict) (k : String),
      dlookup (l.foldl (filterStep cat m) acc) k =
        match dlookup cat.PARAMS k with
        | none => dlookup acc k
        | some sp =>
          if m ∈ sp.modes then
            match dlookupLast l k with
            | some v => some v
            | none => dlookup acc k
          else dlookup acc k := by
  intro l
  induction l with
  | nil =>
    intro acc k
    cases hc : dlookup cat.PARAMS k with
    | none => rfl
    | some sp =>
      simp only [List.foldl_nil]
      split <;> simp [dlookupLast, dlookup]
  | cons kv l ih =>
    intro acc k
    obtain ⟨k1, v1⟩ := kv
    rw [List.foldl_cons, ih, dlookupLast_cons]
    have hstep : ∀ k2, dlookup (filterStep cat m acc (k1, v1)) k2 =
        if k2 = k1 then
          (match dlookup cat.PARAMS k1 with
           | none => dlookup acc k1
           | some sp1 => if m ∈ sp1.modes then some v1 else dlookup acc k1)
        else dlookup acc k2 := by
      intro k2
      unfold filterStep
      by_cases hk2 : k2 = k1
      · subst hk2
        rw [if_pos rfl]
        cases hc1 : dlookup cat.PARAMS k2 with
        | none => rfl
        | some sp1 =>
          simp only
          by_cases hm : m ∈ sp1.modes
          · rw [if_pos hm, if_pos hm, dlookup_dinsert, if_pos rfl]
          · rw [if_neg hm, if_neg hm]
      · rw [if_neg hk2]
        cases hc1 : dlookup cat.PARAMS k1 with
        | none => rfl
        | some sp1 =>
          simp only
          by_cases hm : m ∈ sp1.modes
          · rw [if_pos hm, dlookup_dinsert, if_neg hk2]
          · rw [if_neg hm]
    cases hc : dlookup cat.PARAMS k with
    | none =>
      show dlookup (filterStep cat m acc (k1, v1)) k = dlookup acc k
      rw [hstep k]
      by_cases hkk : k = k1
      · subst hkk
        rw [if_pos rfl, hc]
      · rw [if_neg hkk]
    | some sp =>
      dsimp only
      by_cases hm : m ∈ sp.modes
      · rw [if_pos hm, if_pos hm]
        cases hl : dlookupLast l k with
        | some v => simp
        | none =>
          show dlookup (filterStep cat m acc (k1, v1)) k =
            match (if k = k1 then some v1 else none) with
            | some v => some v
            | none => dlookup acc k
          rw [hstep k]
          by_cases hkk : k = k1
          · subst hkk
            rw [if_pos rfl, if_pos rfl, hc]
            dsimp only
            rw [if_pos hm]
          · rw [if_neg hkk, if_neg hkk]
      · rw [if_neg hm, if_neg hm]
        rw [hstep k]
        by_cases hkk : k = k1
        · subst hkk
          rw [if_pos rfl, hc]
          dsimp only
          rw [if_neg hm]
        · rw [if_neg hkk]

theorem filterParams_lookup (cat : ParameterCatalog) (m : String) (p : Dict)
    (k : String) :
    dlookup (filterParams cat m p) k =
      match dlookup cat.PARAMS k with
      | none => none
      | some sp => if m ∈ sp.modes then dlookupLast p k else none := by
  unfold filterParams
  rw [filter_foldl_lookup]
  have hnil : dlookup ([] : Dict) k = none := rfl
  cases dlookup cat.PARAMS k with
  | none => exact hnil
  | some sp =>
    simp only [hnil]
    split
    · cases hl : dlookupLast p k <;> simp [hl]
    · rfl

theorem filterParams_good (cat : ParameterCatalog) (m : String) (p : Dict)
    (k : String) (v : String) (h : dlookup (filterParams cat m p) k = some v) :
    GoodKey cat m k := by
  rw [filterParams_lookup] at h
  cases hc : dlookup cat.PARAMS k with
  | none => rw [hc] at h; exact absurd h (by simp)
  | some sp =>
    rw [hc] at h
    dsimp only at h
    by_cases hm : m ∈ sp.modes
    · exact ⟨sp, hc, hm⟩
    · rw [if_neg hm] at h; exact absurd h (by simp)

theorem foldl_filterStep_nodup (cat : ParameterCatalog) (m : String) :
    ∀ (l : List (String × String)) (acc : Dict), DNodup acc →
      DNodup (l.foldl (filterStep cat m) acc) := by
  intro l
  induction l with
  | nil => intro acc h; exact h
  | cons kv l ih =>
    intro acc h
    rw [List.foldl_cons]
    apply ih
    unfold filterStep
    cases dlookup cat.PARAMS kv.1 with
    | none => exact h
    | some sp =>
      simp only
      split
      · exact dnodup_dinsert _ _ _ h
      · exact h

theorem filterParams_nodup (cat : ParameterCatalog) (m : String) (p : Dict) :
    DNodup (filterParams cat m p) :=
  foldl_filterStep_nodup cat m p [] dnodup_nil

theorem absolutize_lookup_not_mem (orig : Dict) :
    ∀ (names : List String) (d d2 : Dict),
      absolutizePaths orig names d = .ok d2 →
      ∀ k, k ∉ names → dlookup d2 k = dlookup d k := by
  intro names
  induction names with
  | nil =>
    intro d d2 h k _
    simp only [absolutizePaths] at h
    cases h
    rfl
  | cons name rest ih =>
    intro d d2 h k hk
    simp only [absolutizePaths] at h
    have hk1 : k ≠ name := fun hc => hk (by rw [hc]; exact List.mem_cons_self _ _)
    have hk2 : k ∉ rest := fun hc => hk (List.mem_cons_of_mem _ hc)
    cases hd : dlookup d name with
    | none =>
      rw [hd] at h
      exact ih d d2 h k hk2
    | some v =>
      rw [hd] at h
      cases hbp : dlookup orig "BASE_PATH" with
      | none => rw [hbp] at h; exact absurd h (by simp)
      | some bp =>
        rw [hbp] at h
        rw [ih _ d2 h k hk2, dlookup_dinsert, if_neg hk1]

theorem absolutize_preserves (orig : Dict) (P : String → Prop) :
    ∀ (names : List String) (d d2 : Dict),
      absolutizePaths orig names d = .ok d2 →
      (∀ k v, dlookup d k = some v → P k) →
      ∀ k v, dlookup d2 k = some v → P k := by
  intro names
  induction names with
  | nil =>
    intro d d2 h hP
    simp only [absolutizePaths] at h
    cases h
    exact hP
  | cons name rest ih =>
    intro d d2 h hP
    simp only [absolutizePaths] at h
    cases hd : dlookup d name with
    | none =>
      rw [hd] at h
      exact ih d d2 h hP
    | some v =>
      rw [hd] at h
      cases hbp : dlookup orig "BASE_PATH" with
      | none => rw [hbp] at h; exact absurd h (by simp)
      | some bp =>
        rw [hbp] at h
        refine ih _ d2 h ?_
        intro k w hw
        rw [dlookup_dinsert] at hw
        by_cases hkk : k = name
        · subst hkk; exact hP k v hd
        · rw [if_neg hkk] at hw; exact hP k w hw

theorem absolutize_nodup (orig : Dict) :
    ∀ (names : List String) (d d2 : Dict),
      absolutizePaths orig names d = .ok d2 → DNodup d → DNodup d2 := by
  intro names
  induction names with
  | nil =>
    intro d d2 h hnd
    simp only [absolutizePaths] at h
    cases h
    exact hnd
  | cons name rest ih =>
    intro d d2 h hnd
    simp only [absolutizePaths] at h
    cases hd : dlookup d name with
    | none => rw [hd] at h; exact ih d d2 h hnd
    | some v =>
      rw [hd] at h
      cases hbp : dlookup orig "BASE_PATH" with
      | none => rw [hbp] at h; exact absurd h (by simp)
      | some bp =>
        rw [hbp] at h
        exact ih _ d2 h (dnodup_dinsert _ _ _ hnd)

theorem absolutize_hit (orig : Dict) :
    ∀ (names : List String) (d d2 : Dict),
      absolutizePaths orig names d = .ok d2 →
      ∀ name, name ∈ names → dlookup d2 name ≠ none →
      ∃ bp, dlookup orig "BASE_PATH" = some bp := by
  intro names
  induction names with
  | nil => intro d d2 _ name hmem; exact absurd hmem (List.not_mem_nil _)
  | cons name1 rest ih =>
    intro d d2 h name hmem hval
    simp only [absolutizePaths] at h
    cases hd : dlookup d name1 with
    | none =>
      rw [hd] at h
      rcases List.mem_cons.mp hmem with hc | hc
      · subst hc
        by_cases hmem2 : name ∈ rest
        · exact ih d d2 h name hmem2 hval
        · rw [absolutize_lookup_not_mem orig rest d d2 h name hmem2, hd] at hval
          exact absurd rfl hval
      · exact ih d d2 h name hc hval
    | some v =>
      rw [hd] at h
      cases hbp : dlookup orig "BASE_PATH" with
      | none => rw [hbp] at h; exact absurd h (by simp)
      | some bp => exact ⟨bp, rfl⟩

theorem absolutize_abs_values (orig : Dict)
    (hbp2 : ∀ bp, dlookup orig "BASE_PATH" = some bp → isAbs bp = true) :
    ∀ (names : List String) (d d2 : Dict),
      absolutizePaths orig names d = .ok d2 →
      ∀ name, name ∈ names → ∀ v2, dlookup d2 name = some v2 →
      isAbs v2 = true := by
  intro names
  induction names with
  | nil => intro d d2 _ name hmem; exact absurd hmem (List.not_mem_nil _)
  | cons name1 rest ih =>
    intro d d2 h name hmem v2 hval
    simp only [absolutizePaths] at h
    cases hd : dlookup d name1 with
    | none =>
      rw [hd] at h
      rcases List.mem_cons.mp hmem with hc | hc
      · subst hc
        by_cases hmem2 : name ∈ rest
        · exact ih d d2 h name hmem2 v2 hval
        · rw [absolutize_lookup_not_mem orig rest d d2 h name hmem2, hd] at hval
          exact absurd hval (by simp)
      · exact ih d d2 h name hc v2 hval
    | some v =>
      rw [hd] at h
      cases hbp : dlookup orig "BASE_PATH" with
      | none => rw [hbp] at h; exact absurd h (by simp)
      | some bp =>
        rw [hbp] at h
        rcases List.mem_cons.mp hmem with hc | hc
        · subst hc
          by_cases hmem2 : name ∈ rest
          · exact ih _ d2 h name hmem2 v2 hval
          · rw [absolutize_lookup_not_mem orig rest _ d2 h name hmem2,
              dlookup_dinsert, if_pos rfl] at hval
            cases hval
            exact isAbs_joinPath bp v (hbp2 bp hbp)
        · exact ih _ d2 h name hc v2 hval

theorem absolutize_noop (orig : Dict) :
    ∀ (names : List String) (d0 d : Dict)
      (hrel : ∀ k, dlookup d k = dlookup d0 k)
      (hfix : ∀ name, name ∈ names → ∀ v, dlookup d0 name = some v →
        ∃ bp, dlookup orig "BASE_PATH" = some bp ∧ joinPath bp v = v),
      ∃ d2, absolutizePaths orig names d = .ok d2 ∧
        ∀ k, dlookup d2 k = dlookup d0 k := by
  intro names
  induction names with
  | nil =>
    intro d0 d hrel _
    exact ⟨d, rfl, hrel⟩
  | cons name rest ih =>
    intro d0 d hrel hfix
    simp only [absolutizePaths]
    cases hd : dlookup d name with
    | none =>
      exact ih d0 d hrel (fun n hn v hv => hfix n (List.mem_cons_of_mem _ hn) v hv)
    | some v =>
      have hv0 : dlookup d0 name = some v := by rw [← hrel, hd]
      obtain ⟨bp, hbp, hjoin⟩ := hfix name (List.mem_cons_self _ _) v hv0
      dsimp only
      rw [hbp]
      dsimp only
      rw [hjoin]
      have hrel2 : ∀ k, dlookup (dinsert d name v) k = dlookup d0 k := by
        intro k
        rw [dlookup_dinsert_self d name v hd, hrel]
      exact ih d0 _ hrel2 (fun n hn w hw => hfix n (List.mem_cons_of_mem _ hn) w hw)

/-- Destructor for a successful run of `_prepare_config_parameters`. -/
theorem prepare_ok_elim (cat : ParameterCatalog) (p : Dict) (s : List String)
    (np : Dict) (s2 : List String)
    (h : prepare_config_parameters cat p s = .ok (np, s2)) :
    s2 = s ∧ ∃ mv m np2,
      dlookup p "CALCULATION_MODE" = some mv ∧
      dlookup cat.calculationModes mv = some m ∧
      absolutizePaths p cat.PATH_PARAMS (filterParams cat m p) = .ok np2 ∧
      np = (if m = "classical" ∧ "HAZARD" ∈ s ∧ "RISK" ∈ s
        then dinsert np2 "COMPUTE_MEAN_HAZARD_CURVE" "true" else np2) := by
  unfold prepare_config_parameters at h
  cases hmv : dlookup p "CALCULATION_MODE" with
  | none => rw [hmv] at h; exact absurd h (by simp)
  | some mv =>
    rw [hmv] at h
    dsimp only at h
    cases hmode : dlookup cat.calculationModes mv with
    | none => rw [hmode] at h; exact absurd h (by simp)
    | some m =>
      rw [hmode] at h
      dsimp only at h
      cases habs : absolutizePaths p cat.PATH_PARAMS (filterParams cat m p) with
      | error e => rw [habs] at h; exact absurd h (by simp)
      | ok np2 =>
        rw [habs] at h
        dsimp only at h
        by_cases hcond : m = "classical" ∧ "HAZARD" ∈ s ∧ "RISK" ∈ s
        · rw [if_pos hcond] at h
          simp only [Except.ok.injEq, Prod.mk.injEq] at h
          refine ⟨h.2.symm, mv, m, np2, ?_, ?_, ?_, ?_⟩
          · first | rfl | exact hmv
          · first | rfl | exact hmode
          · first | rfl | exact habs
          · rw [if_pos hcond, h.1]
        · rw [if_neg hcond] at h
          simp only [Except.ok.injEq, Prod.mk.injEq] at h
          refine ⟨h.2.symm, mv, m, np2, ?_, ?_, ?_, ?_⟩
          · first | rfl | exact hmv
          · first | rfl | exact hmode
          · first | rfl | exact habs
          · rw [if_neg hcond, h.1]

/-! ## Claim theorems -/

/-- Helper for the status-machine claim: once a run's write sequence is
`running` followed by one terminal write, the status is monotone. -/
theorem statusAt_mono_of_writes (w : WorkerOutcome) (x : Status)
    (hw : runCalculationWrites w = [Status.running, x]) (n m1 : Nat)
    (hnm : n ≤ m1) (hterm : (statusAt w n).isTerminal = true) :
    statusAt w m1 = statusAt w n := by
  have hval : ∀ k, statusAt w k =
      if k = 0 then Status.pending else if k = 1 then Status.running else x := by
    intro k
    unfold statusAt
    rw [hw]
    match k with
    | 0 => rfl
    | 1 => rfl
    | k + 2 =>
      rw [if_neg (by omega), if_neg (by omega)]
      show statusAfter (List.take (k + 2) [Status.running, x]) Status.pending = x
      simp [statusAfter]
  rcases n with _ | n1
  · rw [hval 0] at hterm
    exact absurd hterm (by simp [Status.isTerminal])
  · rcases n1 with _ | n2
    · rw [hval 1] at hterm
      exact absurd hterm (by simp [Status.isTerminal])
    · rw [hval m1, hval (n2 + 2), if_neg (by omega), if_neg (by omega),
        if_neg (by omega), if_neg (by omega)]

/-- C1: in the write sequence a run of `run_calculation` produces — the
`running` write, the worker's terminal write (if the worker lives to make
one), then the supervisor's reconciliation, which checks the current status
before writing — once the record's status is terminal, every later point of
the sequence shows the same status: no write by the worker, the supervisor
or `run_calculation` changes a terminal status. -/
theorem run_calculation_status_monotonic (w : WorkerOutcome) (n m1 : Nat)
    (hnm : n ≤ m1) (hterm : (statusAt w n).isTerminal = true) :
    statusAt w m1 = statusAt w n := by
  cases w with
  | completed r =>
    cases r with
    | error e =>
      exact statusAt_mono_of_writes (WorkerOutcome.completed (.error e))
        Status.failed rfl n m1 hnm hterm
    | ok u =>
      exact statusAt_mono_of_writes (WorkerOutcome.completed (.ok u))
        Status.succeeded rfl n m1 hnm hterm
  | killed =>
    exact statusAt_mono_of_writes WorkerOutcome.killed Status.failed rfl
      n m1 hnm hterm

/-- Witness for C1 at a concrete outcome: a worker killed before writing;
after the supervisor's `failed` write (write index 2) the status stays
`failed`. -/
theorem run_calculation_status_monotonic_witness :
    statusAt WorkerOutcome.killed 5 = statusAt WorkerOutcome.killed 2 ∧
    statusAt WorkerOutcome.killed 2 = Status.failed :=
  ⟨run_calculation_status_monotonic WorkerOutcome.killed 2 5 (by decide)
      (by decide),
    by decide⟩

/-- C2: a root config path absent from the file system makes
`_parse_config_file` raise the spec's `ConfigNotFound` error, and then
the whole pipeline fails with that same error having created zero durable
records. -/
theorem parse_missing_config_fails (fs : FileSystem) (cat : ParameterCatalog)
    (validatorOk : Dict → List String → Bool) (records fuel : Nat)
    (path : String) (h : dlookup fs path = none) :
    parseConfigFile fs (fuel + 1) path =
      some (.error (.configNotFound path)) ∧
    import_job_profile fs cat validatorOk records (fuel + 1) path =
      (some (.error (.configNotFound path)), 0) := by
  have h1 : parseConfigFile fs (fuel + 1) path =
      some (.error (.configNotFound path)) := by
    unfold parseConfigFile
    rw [h]
  refine ⟨h1, ?_⟩
  unfold import_job_profile
  rw [h1]

/-- Witness for C2: the empty file system holds no file at `/missing.gem`. -/
theorem parse_missing_config_fails_witness :
    parseConfigFile [] 1 "/missing.gem" =
      some (.error (.configNotFound "/missing.gem")) ∧
    import_job_profile [] ⟨[], [], []⟩ (fun _ _ => true) 3 1 "/missing.gem" =
      (some (.error (.configNotFound "/missing.gem")), 0) :=
  parse_missing_config_fails [] ⟨[], [], []⟩ (fun _ _ => true) 3 0
    "/missing.gem" rfl

/-- C3 (evaluation of the code at the failing input): with two include
directives in one file, the first naming `sub/x.gem`, the parser resolves
the second directive's `y.gem` against `/a/sub` — the directory of the
previously resolved include — not against `/a`, the directory of the file
containing the directive: the result holds `K = subdir` from
`/a/sub/y.gem`, although `/a/y.gem` (the path the claim mandates) holds
`K = rootdir`.  The loop reassigns its `config_file` variable on every
include. -/
theorem second_include_resolved_against_previous_include :
    parseConfigFile fsTwoIncludes 3 "/a/root.gem" =
      some (.ok ([("HP", "1"), ("K", "subdir"), ("BASE_PATH", "/a")],
        ["HAZARD", "RISK"])) ∧
    dlookup fsTwoIncludes "/a/y.gem" = some [("RISK", [("K", "rootdir")])] ∧
    dlookup fsTwoIncludes "/a/sub/y.gem" = some [("RISK", [("K", "subdir")])] :=
  ⟨rfl, rfl, rfl⟩

/-- Counterexample to C4 as stated: the root file's only section,
`general`, holds nothing but an include directive, and the parser records
a section name only when it meets a non-include key — so `general` is a
section of a visited file, yet the returned section list is `["HAZARD"]`. -/
theorem parse_sections_union_counterexample :
    parseConfigFile fsIncludeOnlySection 2 "/a/r.gem" =
      some (.ok ([("P", "1"), ("BASE_PATH", "/a")], ["HAZARD"])) ∧
    dlookup fsIncludeOnlySection "/a/r.gem" =
      some [("general", [("HAZARD_INCLUDE", "h.gem")])] ∧
    ¬ ("general" ∈ (["HAZARD"] : List String)) :=
  ⟨rfl, rfl, by decide⟩

/-- C4 (amended): a successful parse returns a parameter mapping equal —
extensionally, as dictionaries — to the last-write-wins merge of the
key/value pairs of every visited file in depth-first visitation order,
with `BASE_PATH` then bound to the root file's directory; and a section
list equal, as a set without duplicates, to the sections of visited files
that contain at least one non-include key. -/
theorem parse_round_trip_merge (fs : FileSystem) (fuel : Nat) (root : String)
    (p : Dict) (s : List String)
    (h : parseConfigFile fs fuel root = some (.ok (p, s))) :
    ∃ ps vs, visitedConfig fs fuel root = some (.ok (ps, vs)) ∧
      (∀ k, dlookup p k =
        dlookup (dinsert (dupdate [] ps) "BASE_PATH" (dirname root)) k) ∧
      (∀ x, x ∈ s ↔ x ∈ vs) := by
  obtain ⟨ps, vs, hv, _, hrel, hbp, hsec⟩ := parse_visited_rel fs fuel root p s h
  refine ⟨ps, vs, hv, ?_, hsec⟩
  intro k
  by_cases hk : k = "BASE_PATH"
  · subst hk
    rw [hbp, dlookup_dinsert, if_pos rfl]
  · rw [dlookup_dinsert, if_neg hk]
    exact hrel k hk

/-- Witness for C4 at a concrete two-file configuration. -/
theorem parse_round_trip_merge_witness :
    ∃ ps vs, visitedConfig fsIncludeOnlySection 2 "/a/r.gem" =
        some (.ok (ps, vs)) ∧
      (∀ k, dlookup [("P", "1"), ("BASE_PATH", "/a")] k =
        dlookup (dinsert (dupdate [] ps) "BASE_PATH" (dirname "/a/r.gem")) k) ∧
      (∀ x, x ∈ (["HAZARD"] : List String) ↔ x ∈ vs) :=
  parse_round_trip_merge fsIncludeOnlySection 2 "/a/r.gem"
    [("P", "1"), ("BASE_PATH", "/a")] ["HAZARD"] rfl

/-- C5: when the calculation mode resolves to `classical` and the sections
include both `HAZARD` and `RISK`, the prepared mapping binds
`COMPUTE_MEAN_HAZARD_CURVE` to the string `true`, whatever the user
supplied for that key. -/
theorem prepare_classical_forces_mean_curve (cat : ParameterCatalog)
    (p : Dict) (s : List String) (mv : String) (np : Dict) (s2 : List String)
    (hmv : dlookup p "CALCULATION_MODE" = some mv)
    (hmode : dlookup cat.calculationModes mv = some "classical")
    (hH : "HAZARD" ∈ s) (hR : "RISK" ∈ s)
    (hrun : prepare_config_parameters cat p s = .ok (np, s2)) :
    dlookup np "COMPUTE_MEAN_HAZARD_CURVE" = some "true" := by
  obtain ⟨-, mv2, m2, np2, hmv2, hmode2, -, hnp⟩ :=
    prepare_ok_elim cat p s np s2 hrun
  rw [hmv] at hmv2
  injection hmv2 with hmveq
  subst hmveq
  rw [hmode] at hmode2
  injection hmode2 with hmeq
  subst hmeq
  rw [hnp, if_pos ⟨rfl, hH, hR⟩, dlookup_dinsert, if_pos rfl]

/-- Witness for C5: a user-supplied `false` is overridden to `true`. -/
theorem prepare_classical_forces_mean_curve_witness :
    dlookup [("CALCULATION_MODE", "classical"),
      ("COMPUTE_MEAN_HAZARD_CURVE", "true")] "COMPUTE_MEAN_HAZARD_CURVE" =
      some "true" :=
  prepare_classical_forces_mean_curve
    ⟨[("CALCULATION_MODE", ⟨["classical"]⟩),
      ("COMPUTE_MEAN_HAZARD_CURVE", ⟨["classical"]⟩)], [],
      [("classical", "classical")]⟩
    [("CALCULATION_MODE", "classical"), ("COMPUTE_MEAN_HAZARD_CURVE", "false")]
    ["general", "HAZARD", "RISK"] "classical"
    [("CALCULATION_MODE", "classical"), ("COMPUTE_MEAN_HAZARD_CURVE", "true")]
    ["general", "HAZARD", "RISK"] rfl rfl (by decide) (by decide) rfl

/-- C7: the worker boundary around `_launch_calculation` performs exactly
one terminal status write per run: `failed` with the same exception
re-raised when the lifecycle raises, `succeeded` with a normal return when
it does not. -/
theorem worker_exactly_one_terminal_write (launch : Except String Unit) :
    ((workerBoundary launch).1.length = 1 ∧
      ∀ st ∈ (workerBoundary launch).1, st.isTerminal = true) ∧
    (∀ e, launch = .error e →
      workerBoundary launch = ([Status.failed], .error e)) ∧
    (∀ u : Unit, launch = .ok u →
      workerBoundary launch = ([Status.succeeded], .ok ())) := by
  cases launch with
  | error e =>
    refine ⟨⟨rfl, ?_⟩, ?_, ?_⟩
    · intro st hst
      simp only [workerBoundary, List.mem_singleton] at hst
      rw [hst]
      rfl
    · intro e2 he
      cases he
      rfl
    · intro u hu
      exact absurd hu (by simp)
  | ok u =>
    refine ⟨⟨rfl, ?_⟩, ?_, ?_⟩
    · intro st hst
      simp only [workerBoundary, List.mem_singleton] at hst
      rw [hst]
      rfl
    · intro e2 he
      exact absurd he (by simp)
    · intro u2 hu
      rfl

/-- Witness for C7 at one failing and one succeeding lifecycle. -/
theorem worker_exactly_one_terminal_write_witness :
    workerBoundary (.error "boom") = ([Status.failed], .error "boom") ∧
    workerBoundary (.ok ()) = ([Status.succeeded], .ok ()) :=
  ⟨(worker_exactly_one_terminal_write (.error "boom")).2.1 "boom" rfl,
    (worker_exactly_one_terminal_write (.ok ())).2.2 () rfl⟩

/-- C8: with `SITES = 37.5,-122.2 37.5,-122.1`, an empty site cache and no
exposure-based selection active, `sites_to_compute` returns exactly the two
sites `(-122.2, 37.5)` and `(-122.1, 37.5)`, in input order: the
interleaved lat-then-lon values are zipped into (lon, lat) sites. -/
theorem sites_to_compute_explicit_sites (cp : CalculationProxy)
    (hcache : cp.sites = [])
    (hsites : dlookup cp.params SITES_KEY = some "37.5,-122.2 37.5,-122.1")
    (hnoexp : ¬ (RISK_SECTION ∈ cp.sections ∧
      CalculationProxy.has cp COMPUTE_HAZARD_AT_ASSETS = true)) :
    cp.sites_to_compute =
      [⟨mkRat (-1222) 10, mkRat 375 10⟩, ⟨mkRat (-1221) 10, mkRat 375 10⟩] := by
  have h1 : ¬ (cp.sites ≠ []) := fun hc => hc hcache
  have hhas : CalculationProxy.has cp SITES_KEY = true := by
    unfold CalculationProxy.has
    rw [hsites]
    decide
  unfold CalculationProxy.sites_to_compute
  rw [if_neg h1, if_neg hnoexp, if_pos hhas]
  unfold CalculationProxy.extract_coords
  rw [hsites]
  decide

/-- Witness for C8 at the concrete Scenario B proxy. -/
theorem sites_to_compute_explicit_sites_witness :
    CalculationProxy.sites_to_compute cpSitesEx =
      [⟨mkRat (-1222) 10, mkRat 375 10⟩, ⟨mkRat (-1221) 10, mkRat 375 10⟩] :=
  sites_to_compute_explicit_sites cpSitesEx rfl rfl (by decide)

/-- C10: a parameter mapped to the empty string is treated as absent:
`has` is false for it, `region` is `None` when `REGION_VERTEX` is empty,
and `sites_to_compute` skips the exposure policy (resp. the explicit-sites
policy) when the compute-hazard-at-assets flag (resp. `SITES`) is empty,
falling through to the next policy. -/
theorem empty_string_param_treated_absent (cp : CalculationProxy)
    (name : String) :
    (dlookup cp.params name = some "" →
      CalculationProxy.has cp name = false) ∧
    (dlookup cp.params "REGION_VERTEX" = some "" →
      CalculationProxy.region cp = none) ∧
    (cp.sites = [] →
      dlookup cp.params COMPUTE_HAZARD_AT_ASSETS = some "" →
      cp.sites_to_compute =
        (if CalculationProxy.has cp SITES_KEY = true then
          (CalculationProxy.extract_coords cp SITES_KEY).map
            (fun c => Site.mk c.1 c.2)
        else cp.regionGridSites)) ∧
    (cp.sites = [] → dlookup cp.params SITES_KEY = some "" →
      ¬ (RISK_SECTION ∈ cp.sections ∧
        CalculationProxy.has cp COMPUTE_HAZARD_AT_ASSETS = true) →
      cp.sites_to_compute = cp.regionGridSites) := by
  have hfalse : ∀ nm, dlookup cp.params nm = some "" →
      CalculationProxy.has cp nm = false := by
    intro nm h
    unfold CalculationProxy.has
    rw [h]
    decide
  refine ⟨hfalse name, ?_, ?_, ?_⟩
  · intro h
    unfold CalculationProxy.region
    rw [hfalse "REGION_VERTEX" h]
    simp
  · intro hcache h
    unfold CalculationProxy.sites_to_compute
    rw [if_neg (fun hc => hc hcache),
      if_neg (fun hc => by rw [hfalse COMPUTE_HAZARD_AT_ASSETS h] at hc; exact absurd hc.2 (by simp))]
  · intro hcache h hnoexp
    unfold CalculationProxy.sites_to_compute
    rw [if_neg (fun hc => hc hcache), if_neg hnoexp,
      if_neg (by rw [hfalse SITES_KEY h]; simp)]

/-- Witness for C10 at a proxy mapping all three parameters to the empty
string. -/
theorem empty_string_param_treated_absent_witness :
    CalculationProxy.has cpEmptyEx "REGION_VERTEX" = false ∧
    CalculationProxy.region cpEmptyEx = none ∧
    CalculationProxy.sites_to_compute cpEmptyEx =
      (if CalculationProxy.has cpEmptyEx SITES_KEY = true then
        (CalculationProxy.extract_coords cpEmptyEx SITES_KEY).map
          (fun c => Site.mk c.1 c.2)
      else cpEmptyEx.regionGridSites) ∧
    CalculationProxy.sites_to_compute cpEmptyEx = cpEmptyEx.regionGridSites :=
  ⟨(empty_string_param_treated_absent cpEmptyEx "REGION_VERTEX").1 rfl,
    (empty_string_param_treated_absent cpEmptyEx "REGION_VERTEX").2.1 rfl,
    (empty_string_param_treated_absent cpEmptyEx "REGION_VERTEX").2.2.1 rfl rfl,
    (empty_string_param_treated_absent cpEmptyEx "REGION_VERTEX").2.2.2 rfl rfl
      (by decide)⟩

/-- Every key of a successful preparation's output is known to the catalog
with the active mode among its legal modes, provided the catalog registers
`COMPUTE_MEAN_HAZARD_CURVE` as a classical parameter (which the defaulting
step inserts without consulting the catalog). -/
theorem prepare_keys_good (cat : ParameterCatalog) (p : Dict)
    (s : List String) (np : Dict) (s2 : List String) (mv m : String)
    (hmv : dlookup p "CALCULATION_MODE" = some mv)
    (hmode : dlookup cat.calculationModes mv = some m)
    (hCMHC : GoodKey cat "classical" "COMPUTE_MEAN_HAZARD_CURVE")
    (hrun : prepare_config_parameters cat p s = .ok (np, s2)) :
    ∀ k v, dlookup np k = some v → GoodKey cat m k := by
  obtain ⟨-, mv2, m2, np1, hmv2, hmode2, habs1, hnp⟩ :=
    prepare_ok_elim cat p s np s2 hrun
  rw [hmv] at hmv2
  injection hmv2 with hmveq
  subst hmveq
  rw [hmode] at hmode2
  injection hmode2 with hmeq
  subst hmeq
  have hfil : ∀ k v, dlookup (filterParams cat m p) k = some v →
      GoodKey cat m k := fun k v h => filterParams_good cat m p k v h
  have hnp1 : ∀ k v, dlookup np1 k = some v → GoodKey cat m k :=
    absolutize_preserves p (GoodKey cat m) cat.PATH_PARAMS _ np1 habs1 hfil
  intro k v hk
  rw [hnp] at hk
  by_cases hcond : m = "classical" ∧ "HAZARD" ∈ s ∧ "RISK" ∈ s
  · rw [if_pos hcond, dlookup_dinsert] at hk
    by_cases hkc : k = "COMPUTE_MEAN_HAZARD_CURVE"
    · subst hkc
      rw [hcond.1]
      exact hCMHC
    · rw [if_neg hkc] at hk
      exact hnp1 k v hk
  · rw [if_neg hcond] at hk
    exact hnp1 k v hk

/-- C6: with a recognized `CALCULATION_MODE`, every key of the prepared
mapping is known to the catalog and legal in the active mode — keys unknown
to the catalog, and keys whose modes exclude the active mode, never appear
(given that the catalog registers `COMPUTE_MEAN_HAZARD_CURVE` for
classical mode, as the spec's complete registry does). -/
theorem prepare_output_keys_catalogued (cat : ParameterCatalog) (p : Dict)
    (s : List String) (np : Dict) (s2 : List String) (mv m : String)
    (hmv : dlookup p "CALCULATION_MODE" = some mv)
    (hmode : dlookup cat.calculationModes mv = some m)
    (hCMHC : GoodKey cat "classical" "COMPUTE_MEAN_HAZARD_CURVE")
    (hrun : prepare_config_parameters cat p s = .ok (np, s2)) :
    ∀ k v, dlookup np k = some v → GoodKey cat m k :=
  prepare_keys_good cat p s np s2 mv m hmv hmode hCMHC hrun

/-- Witness for C6: on a mapping holding an unknown key (`JUNK`) and a
wrong-mode key (`EXPOSURE` under `scenario`), the prepared output keeps
only catalogued scenario keys; instantiated at the surviving key `SITES`. -/
theorem prepare_output_keys_catalogued_witness :
    GoodKey demoCatalog "scenario" "SITES" :=
  prepare_output_keys_catalogued demoCatalog
    [("CALCULATION_MODE", "scenario"), ("JUNK", "1"), ("EXPOSURE", "e.xml"),
      ("SITES", "1.0,2.0")]
    ["general", "HAZARD"]
    [("CALCULATION_MODE", "scenario"), ("SITES", "1.0,2.0")]
    ["general", "HAZARD"] "scenario" "scenario" rfl rfl
    ⟨⟨["classical"]⟩, rfl, by decide⟩ rfl "SITES" "1.0,2.0" rfl

/-- C9: `_prepare_config_parameters` is idempotent on its own output —
for a raw mapping (duplicate-free, with an absolute `BASE_PATH` as the
resolver guarantees) it succeeds on, running it again on the output with
the same sections returns that output unchanged (extensionally, as
dictionaries), given the catalog sanity facts the spec's registry
satisfies: `CALCULATION_MODE` and `BASE_PATH` are registered for the
active mode, `COMPUTE_MEAN_HAZARD_CURVE` for classical, and none of the
three is path-valued. -/
theorem prepare_idempotent (cat : ParameterCatalog) (p : Dict)
    (s : List String) (np : Dict) (s2 : List String) (mv m : String)
    (hnodup : DNodup p)
    (hmv : dlookup p "CALCULATION_MODE" = some mv)
    (hmode : dlookup cat.calculationModes mv = some m)
    (hBPabs : ∀ bp, dlookup p "BASE_PATH" = some bp → isAbs bp = true)
    (hCMcat : GoodKey cat m "CALCULATION_MODE")
    (hBPcat : GoodKey cat m "BASE_PATH")
    (hCMHCcat : GoodKey cat "classical" "COMPUTE_MEAN_HAZARD_CURVE")
    (hCMpp : "CALCULATION_MODE" ∉ cat.PATH_PARAMS)
    (hBPpp : "BASE_PATH" ∉ cat.PATH_PARAMS)
    (hCMHCpp : "COMPUTE_MEAN_HAZARD_CURVE" ∉ cat.PATH_PARAMS)
    (hrun : prepare_config_parameters cat p s = .ok (np, s2)) :
    ∃ np2, prepare_config_parameters cat np s2 = .ok (np2, s2) ∧
      ∀ k, dlookup np2 k = dlookup np k := by
  obtain ⟨hs2, mv2, m2, np1, hmv2, hmode2, habs1, hnp⟩ :=
    prepare_ok_elim cat p s np s2 hrun
  subst hs2
  rw [hmv] at hmv2
  injection hmv2 with hmveq
  subst hmveq
  rw [hmode] at hmode2
  injection hmode2 with hmeq
  subst hmeq
  have hgood : ∀ k v, dlookup np k = some v → GoodKey cat m k :=
    prepare_keys_good cat p _ np _ mv m hmv hmode hCMHCcat hrun
  -- values of np at keys outside PATH_PARAMS come straight from the filter
  have hnp_of_np1 : ∀ k, k ≠ "COMPUTE_MEAN_HAZARD_CURVE" →
      dlookup np k = dlookup np1 k := by
    intro k hk
    rw [hnp]
    by_cases hcond : m = "classical" ∧ "HAZARD" ∈ s2 ∧ "RISK" ∈ s2
    · rw [if_pos hcond, dlookup_dinsert, if_neg hk]
    · rw [if_neg hcond]
  have hval : ∀ k, k ∉ cat.PATH_PARAMS → k ≠ "COMPUTE_MEAN_HAZARD_CURVE" →
      dlookup np k = dlookup (filterParams cat m p) k := by
    intro k hk1 hk2
    rw [hnp_of_np1 k hk2,
      absolutize_lookup_not_mem p cat.PATH_PARAMS _ np1 habs1 k hk1]
  have hCMval : dlookup np "CALCULATION_MODE" = some mv := by
    rw [hval "CALCULATION_MODE" hCMpp (by decide), filterParams_lookup]
    obtain ⟨spc, hspc, hmc⟩ := hCMcat
    rw [hspc]
    dsimp only
    rw [if_pos hmc, dlookupLast_eq_dlookup p hnodup, hmv]
  have hBPval : dlookup np "BASE_PATH" = dlookup p "BASE_PATH" := by
    rw [hval "BASE_PATH" hBPpp (by decide), filterParams_lookup]
    obtain ⟨spb, hspb, hmb⟩ := hBPcat
    rw [hspb]
    dsimp only
    rw [if_pos hmb, dlookupLast_eq_dlookup p hnodup]
  have hnodup_np : DNodup np := by
    have h1 : DNodup np1 :=
      absolutize_nodup p cat.PATH_PARAMS _ np1 habs1
        (filterParams_nodup cat m p)
    rw [hnp]
    by_cases hcond : m = "classical" ∧ "HAZARD" ∈ s2 ∧ "RISK" ∈ s2
    · rw [if_pos hcond]
      exact dnodup_dinsert _ _ _ h1
    · rw [if_neg hcond]
      exact h1
  -- the second filter pass keeps everything
  have hG1 : ∀ k, dlookup (filterParams cat m np) k = dlookup np k := by
    intro k
    rw [filterParams_lookup]
    cases hc : dlookup cat.PARAMS k with
    | none =>
      cases hv : dlookup np k with
      | none => rfl
      | some v =>
        obtain ⟨sp, hsp, -⟩ := hgood k v hv
        rw [hc] at hsp
        exact absurd hsp (by simp)
    | some sp =>
      dsimp only
      by_cases hm : m ∈ sp.modes
      · rw [if_pos hm, dlookupLast_eq_dlookup np hnodup_np]
      · rw [if_neg hm]
        cases hv : dlookup np k with
        | none => rfl
        | some v =>
          obtain ⟨sp2, hsp2, hm2⟩ := hgood k v hv
          rw [hc] at hsp2
          injection hsp2 with hspeq
          subst hspeq
          exact absurd hm2 hm
  -- the second absolutization pass is an extensional no-op
  have hfix : ∀ name, name ∈ cat.PATH_PARAMS → ∀ v,
      dlookup np name = some v →
      ∃ bp, dlookup np "BASE_PATH" = some bp ∧ joinPath bp v = v := by
    intro name hmem v hv
    have hnc : name ≠ "COMPUTE_MEAN_HAZARD_CURVE" :=
      fun hc => hCMHCpp (hc ▸ hmem)
    have hv1 : dlookup np1 name = some v := by
      rw [← hnp_of_np1 name hnc]
      exact hv
    obtain ⟨bp, hbp⟩ :=
      absolutize_hit p cat.PATH_PARAMS _ np1 habs1 name hmem
        (by rw [hv1]; exact fun hcc => Option.noConfusion hcc)
    have habsv : isAbs v = true :=
      absolutize_abs_values p hBPabs cat.PATH_PARAMS _ np1 habs1 name hmem v hv1
    exact ⟨bp, by rw [hBPval]; exact hbp, joinPath_of_isAbs bp v habsv⟩
  obtain ⟨np22, habs2, hnoop⟩ :=
    absolutize_noop np cat.PATH_PARAMS np (filterParams cat m np) hG1 hfix
  by_cases hcond : m = "classical" ∧ "HAZARD" ∈ s2 ∧ "RISK" ∈ s2
  · have hCMHCnp : dlookup np "COMPUTE_MEAN_HAZARD_CURVE" = some "true" := by
      rw [hnp, if_pos hcond, dlookup_dinsert, if_pos rfl]
    have hCMHC22 : dlookup np22 "COMPUTE_MEAN_HAZARD_CURVE" = some "true" := by
      rw [hnoop _, hCMHCnp]
    refine ⟨dinsert np22 "COMPUTE_MEAN_HAZARD_CURVE" "true", ?_, ?_⟩
    · unfold prepare_config_parameters
      rw [hCMval]
      dsimp only
      rw [hmode]
      dsimp only
      rw [habs2]
      dsimp only
      rw [if_pos hcond]
    · intro k
      rw [dlookup_dinsert_self np22 _ _ hCMHC22 k, hnoop k]
  · refine ⟨np22, ?_, ?_⟩
    · unfold prepare_config_parameters
      rw [hCMval]
      dsimp only
      rw [hmode]
      dsimp only
      rw [habs2]
      dsimp only
      rw [if_neg hcond]
    · exact hnoop

/-- Witness for C9: running the preparer on its own output over the
demonstration catalog (absolute `BASE_PATH`, one path-valued parameter,
one unknown parameter dropped in the first run). -/
theorem prepare_idempotent_witness :
    ∃ np2, prepare_config_parameters demoCatalog
        [("CALCULATION_MODE", "classical"), ("BASE_PATH", "/base"),
          ("EXPOSURE", "/base/exp.xml"),
          ("COMPUTE_MEAN_HAZARD_CURVE", "true")]
        ["general", "HAZARD", "RISK"] =
        .ok (np2, ["general", "HAZARD", "RISK"]) ∧
      ∀ k, dlookup np2 k = dlookup
        [("CALCULATION_MODE", "classical"), ("BASE_PATH", "/base"),
          ("EXPOSURE", "/base/exp.xml"),
          ("COMPUTE_MEAN_HAZARD_CURVE", "true")] k :=
  prepare_idempotent demoCatalog
    [("CALCULATION_MODE", "classical"), ("BASE_PATH", "/base"),
      ("EXPOSURE", "exp.xml"), ("JUNK", "x")]
    ["general", "HAZARD", "RISK"]
    [("CALCULATION_MODE", "classical"), ("BASE_PATH", "/base"),
      ("EXPOSURE", "/base/exp.xml"), ("COMPUTE_MEAN_HAZARD_CURVE", "true")]
    ["general", "HAZARD", "RISK"] "classical" "classical"
    (by decide) rfl rfl
    (by
      intro bp h
      have heq : (some "/base" : Option String) = some bp := h
      cases heq
      decide)
    ⟨⟨["classical", "scenario"]⟩, rfl, by decide⟩
    ⟨⟨["classical", "scenario"]⟩, rfl, by decide⟩
    ⟨⟨["classical"]⟩, rfl, by decide⟩
    (by decide) (by decide) (by decide) rfl

end OpenQuake

